import Mathlib

/-!
Verification of the SVPV evidence-aggregation core (src/svpv/sam.py, src/svpv/vcf.py)
against its natural-language specification.

Shallow embedding conventions:
* CIGAR strings are modelled at the run-length level, as ordered lists of
  (length, operation) pairs; the `cigar_clip` regular expression of sam.py
  (optional leading hard clip, optional leading soft clip, one or more
  non-clip groups, optional trailing soft clip, optional trailing hard clip)
  is modelled structurally on that list.
* numpy arrays of per-bin counters become functions from indices to values;
  Python floats used for exactly-representable count arithmetic become `ℚ`.
* Python exceptions become `Except Unit` / `Option` results.
-/

set_option maxHeartbeats 1000000

/-! ## CIGAR model (sam.py, SamEntry) -/

/-- A CIGAR as the ordered run-length list of (length, operation) groups. -/
abbrev Cigar := List (Nat × Char)

/-- sam.py `cigar_ref_chars = re.compile('[MDX=N]')`: the reference-consuming
CIGAR operations. -/
def cigarRefChars : List Char := ['M', 'D', 'X', '=', 'N']

/-- The four optional clip groups captured by sam.py `cigar_clip`:
leading hard clip `LH`, leading soft clip `LS`, trailing soft clip `RS`,
trailing hard clip `RH`. -/
structure ClipGroups where
  lh : Option Nat
  ls : Option Nat
  rs : Option Nat
  rh : Option Nat
deriving DecidableEq

/-- Strip an optional leading group with the given operation, returning its
length (if present) and the remaining groups. -/
def stripLead (op : Char) : Cigar → Option Nat × Cigar
  | [] => (none, [])
  | (n, c) :: rest => if c = op then (some n, rest) else (none, (n, c) :: rest)

/-- Strip an optional trailing group with the given operation. -/
def stripTrail (op : Char) (cs : Cigar) : Option Nat × Cigar :=
  match cs.getLast? with
  | some (n, c) => if c = op then (some n, cs.dropLast) else (none, cs)
  | none => (none, cs)

/-- sam.py `cigar_clip` regex
`^((?P<LH>[0-9]+)H)?((?P<LS>[0-9]+)S)?([0-9]+[^HS])+((?P<RS>[0-9]+)S)?((?P<RH>[0-9]+)H)?$`,
modelled on the run-length list: optional leading `H` group, then optional
leading `S` group, then one or more groups whose operation is neither `H` nor
`S`, then optional trailing `S` group, then optional trailing `H` group.
Returns `none` when the CIGAR does not match the grammar (in the source the
regex search returns no match and the record is malformed). -/
def cigarClip (cs : Cigar) : Option ClipGroups :=
  let p1 := stripLead 'H' cs
  let p2 := stripLead 'S' p1.2
  let p3 := stripTrail 'H' p2.2
  let p4 := stripTrail 'S' p3.2
  if !p4.2.isEmpty && p4.2.all (fun p => p.2 != 'H' && p.2 != 'S') then
    some ⟨p1.1, p2.1, p4.1, p3.1⟩
  else
    none

/-- The digit-scan loop of sam.py `get_aligned_pos` (lines 45-53): sum the
lengths of all groups whose operation matches `cigar_ref_chars`. -/
def numAligned (cs : Cigar) : Nat :=
  cs.foldl (fun acc p => if p.2 ∈ cigarRefChars then acc + p.1 else acc) 0

/-! ## SamEntry (sam.py lines 15-118) -/

/-- SAM flag bit constants (sam.py lines 20-31). -/
def pairedFlag : Nat := 1

def mateUnmappedFlag : Nat := 8

def readReverseFlag : Nat := 16

def mateReverseFlag : Nat := 32

def secondaryFlag : Nat := 256

def supplementaryFlag : Nat := 2048

/-- One alignment record, with the derived span stored at construction
(sam.py `SamEntry.__init__`). -/
structure SamEntry where
  flag : Nat
  mateDiffMolecule : Bool
  pos : Int
  mapQ : Nat
  cigar : Cigar
  tlen : Int
  left : Int
  right : Int
deriving DecidableEq

/-- sam.py `SamEntry.__init__` + `get_aligned_pos`: `mate_diff_molecule` is
`'=' not in RNEXT`; `left = pos + leading soft clip (if any)`;
`right = left + num_aligned`.  Construction fails (`None`) when the CIGAR does
not match `cigar_clip` (in the source the regex search returns `None` and the
constructor raises). -/
def mkSamEntry (FLAG : Nat) (POS : Int) (MAPQ : Nat) (CIGAR : Cigar)
    (RNEXT : String) (TLEN : Int) : Option SamEntry :=
  match cigarClip CIGAR with
  | none => none
  | some g =>
    let l : Int := POS + (g.ls.getD 0 : Nat)
    some { flag := FLAG, mateDiffMolecule := !(RNEXT.data.contains '='), pos := POS,
           mapQ := MAPQ, cigar := CIGAR, tlen := TLEN,
           left := l, right := l + (numAligned CIGAR : Nat) }

/-- sam.py `SamEntry.get_num_clipped` (lines 111-118): sum of whichever clip
groups are present.  For an entry built by `mkSamEntry` the CIGAR always
matches the grammar; the `none` branch (where the source would raise on a
failed regex search) is unreachable for constructed entries. -/
def getNumClipped (e : SamEntry) : Nat :=
  match cigarClip e.cigar with
  | some g => g.lh.getD 0 + g.ls.getD 0 + g.rs.getD 0 + g.rh.getD 0
  | none => 0

/-- `numAligned` is the sum of the lengths of the reference-consuming groups. -/
theorem numAligned_eq_sum (cs : Cigar) :
    numAligned cs = ((cs.filter (fun p => p.2 ∈ cigarRefChars)).map Prod.fst).sum := by
  suffices h : ∀ a : Nat,
      cs.foldl (fun acc p => if p.2 ∈ cigarRefChars then acc + p.1 else acc) a =
        a + ((cs.filter (fun p => p.2 ∈ cigarRefChars)).map Prod.fst).sum by
    simpa [numAligned] using h 0
  induction cs with
  | nil => intro a; simp
  | cons hd tl ih =>
    intro a
    by_cases hmem : hd.2 ∈ cigarRefChars
    · simp [hmem, ih, Nat.add_assoc]
    · simp [hmem, ih]

/-- Claim C1: for every alignment record whose CIGAR matches the clip/op
grammar, the derived span satisfies `aligned_left = position + leading soft
clip length`, `aligned_right - aligned_left =` the sum of the lengths of the
reference-consuming operations (M, D, X, `=`, N), and the clipped base count
is the sum of whichever of the four optional clip-group lengths are present. -/
theorem C1_cigar_span (FLAG : Nat) (POS : Int) (MAPQ : Nat) (CIGAR : Cigar)
    (RNEXT : String) (TLEN : Int) (g : ClipGroups) (e : SamEntry)
    (hg : cigarClip CIGAR = some g)
    (he : mkSamEntry FLAG POS MAPQ CIGAR RNEXT TLEN = some e) :
    e.left = POS + (g.ls.getD 0 : Nat) ∧
    e.right - e.left = (((CIGAR.filter (fun p => p.2 ∈ cigarRefChars)).map Prod.fst).sum : Nat) ∧
    getNumClipped e = g.lh.getD 0 + g.ls.getD 0 + g.rs.getD 0 + g.rh.getD 0 := by
  unfold mkSamEntry at he
  rw [hg] at he
  simp only [Option.some.injEq] at he
  subst he
  refine ⟨rfl, ?_, ?_⟩
  · simp [numAligned_eq_sum]
  · simp [getNumClipped, hg]

/-- The spec's worked example: CIGAR `10S40M5D10M5S`. -/
def exCigar : Cigar := [(10, 'S'), (40, 'M'), (5, 'D'), (10, 'M'), (5, 'S')]

/-- The entry built from `exCigar` at position 100. -/
def exEntryC1 : SamEntry :=
  { flag := 0, mateDiffMolecule := false, pos := 100, mapQ := 0,
    cigar := exCigar, tlen := 0, left := 110, right := 165 }

/-- Witness for C1 at the spec's example: CIGAR `10S40M5D10M5S` at position
100 gives `aligned_left = 110`, `aligned_right = 165`, and 15 clipped bases. -/
theorem C1_witness :
    (exEntryC1.left = 100 + ((ClipGroups.mk none (some 10) (some 5) none).ls.getD 0 : Nat) ∧
     exEntryC1.right - exEntryC1.left =
       (((exCigar.filter (fun p => p.2 ∈ cigarRefChars)).map Prod.fst).sum : Nat) ∧
     getNumClipped exEntryC1 =
       (ClipGroups.mk none (some 10) (some 5) none).lh.getD 0 +
       (ClipGroups.mk none (some 10) (some 5) none).ls.getD 0 +
       (ClipGroups.mk none (some 10) (some 5) none).rs.getD 0 +
       (ClipGroups.mk none (some 10) (some 5) none).rh.getD 0) ∧
    exEntryC1.left = 110 ∧ exEntryC1.right = 165 ∧ getNumClipped exEntryC1 = 15 :=
  ⟨C1_cigar_span 0 100 0 exCigar "=" 0 ⟨none, some 10, some 5, none⟩ exEntryC1
      (by decide) (by decide),
   rfl, rfl, by decide⟩

/-! ## DepthStats (sam.py lines 129-161) -/

/-- The three depth tiers of one bin (sam.py `DepthStats.depth_cols`:
`total`, `mapQltT`, `mapQ0`). -/
structure DepthTiers where
  total : ℚ
  mapqltt : ℚ
  mapq0 : ℚ
deriving DecidableEq

/-- sam.py `DepthStats.set_depths` (lines 149-153), per bin: the three
coverage-source outputs are the bedcov results at quality floors 0, 1 and the
threshold; the stored tiers are
`total = cov(Q ≥ 0)`, `mapq0 = total - cov(Q ≥ 1)`,
`mapqltt = total - cov(Q ≥ thresh) - mapq0`. -/
def setDepths (covQ0 covQ1 covQT : Nat → ℚ) (i : Nat) : DepthTiers :=
  { total := covQ0 i,
    mapq0 := covQ0 i - covQ1 i,
    mapqltt := covQ0 i - covQT i - (covQ0 i - covQ1 i) }

/-- Claim C4: after population from a monotonic coverage source, for every bin
the tiers reconcile exactly: `total = mapq0 + mapqltt + ` the implicit
at-or-above-threshold remainder (the coverage at the quality threshold).  The
equality holds by construction of `set_depths`, for every coverage source, so
a violating execution cannot exist (the fatal-on-violation clause of the claim
is vacuously satisfied: this invariant can never be observed broken). -/
theorem C4_depth_tiers (covQ0 covQ1 covQT : Nat → ℚ)
    (hmono : ∀ i, covQT i ≤ covQ1 i ∧ covQ1 i ≤ covQ0 i) :
    ∀ i, (setDepths covQ0 covQ1 covQT i).total =
      (setDepths covQ0 covQ1 covQT i).mapq0 +
      (setDepths covQ0 covQ1 covQT i).mapqltt + covQT i := by
  intro i
  simp only [setDepths]
  ring

/-- Witness for C4 at a concrete monotonic coverage source. -/
theorem C4_witness :
    (setDepths (fun _ => 10) (fun _ => 8) (fun _ => 5) 0).total =
      (setDepths (fun _ => 10) (fun _ => 8) (fun _ => 5) 0).mapq0 +
      (setDepths (fun _ => 10) (fun _ => 8) (fun _ => 5) 0).mapqltt + 5 :=
  C4_depth_tiers (fun _ => 10) (fun _ => 8) (fun _ => 5)
    (fun _ => ⟨by norm_num, by norm_num⟩) 0

/-- numpy dtypes occurring in sam.py `DepthStats`. -/
inductive NpDType
  | intc
  | float64
deriving DecidableEq

/-- The Python objects compared by `is` in sam.py `convert_depths` line 159:
`self.depths.dtype` is always an `np.dtype` object (`dtypeObj d`), while
`np.float` is the builtin Python `float` type object (`floatType`).  Python
`is` compares object identity, modelled as equality of this type; a dtype
object is never the same object as the `float` type. -/
inductive PyObj
  | floatType
  | dtypeObj (d : NpDType)
deriving DecidableEq

/-- A `DepthStats` array: its numpy dtype tag, the bin size, and the stored
per-bin counts (flattened). -/
structure DepthStatsArr where
  dtype : NpDType
  binSize : Nat
  depths : List ℚ
deriving DecidableEq

/-- sam.py `DepthStats.convert_depths` (lines 157-161):
`if self.depths.dtype is np.float: raise ValueError` then
`self.depths = self.depths.astype(np.float) / self.bins.size`.
The guard compares the np.dtype object with the builtin `float` type object by
identity, which never holds, so the guard never fires. -/
def convertDepths (d : DepthStatsArr) : Except Unit DepthStatsArr :=
  if PyObj.dtypeObj d.dtype = PyObj.floatType then Except.error ()
  else Except.ok { dtype := NpDType.float64, binSize := d.binSize,
                   depths := d.depths.map (fun x => x / (d.binSize : ℚ)) }

/-- Claim C5 (refuting): `convert_depths` never raises — its dtype guard
compares an `np.dtype` object against the builtin `float` type with `is`,
which is always false — so invoking it on already-converted (float-dtype)
data silently divides every value by the bin size a second time instead of
failing: 6 becomes 3 after the first conversion and 3/2 after the second. -/
theorem C5_bug :
    (∀ d : DepthStatsArr, (convertDepths d).isOk = true) ∧
    convertDepths { dtype := NpDType.float64, binSize := 2, depths := [6] } =
      Except.ok { dtype := NpDType.float64, binSize := 2, depths := [3] } ∧
    convertDepths { dtype := NpDType.float64, binSize := 2, depths := [3] } =
      Except.ok { dtype := NpDType.float64, binSize := 2, depths := [3 / 2] } := by
  refine ⟨fun d => ?_, ?_, ?_⟩
  · simp only [convertDepths]
    rw [if_neg (fun h => PyObj.noConfusion h)]
    rfl
  · simp only [convertDepths]
    rw [if_neg (fun h => PyObj.noConfusion h)]
    norm_num
  · simp only [convertDepths]
    rw [if_neg (fun h => PyObj.noConfusion h)]
    norm_num

/-! ## Binning scheme and AlignStats (sam.py lines 164-258)

The class providing `get_bin_coverage` (the coordinate-bins object handed to
`AlignStats`) is not among the provided source files; it is modelled from
spec sections 3 and 4.2. -/

/-- Modelled from the spec: a CoordinateBins value (spec section 3) —
`chromosome`, inclusive `start`, positive `bin_size`, `bin_count`; covers
`[start, start + bin_size * bin_count)`.  The class itself is missing from the
provided sources (only its callers in sam.py are present). -/
structure Bins where
  chrom : String
  start : Int
  size : Nat
  num : Nat
deriving DecidableEq

/-- Modelled from the spec: membership of a position in the covered region
`[start, start + bin_size * bin_count)` (spec section 4.2). -/
def inRegion (b : Bins) (x : Int) : Bool :=
  decide (b.start ≤ x) && decide (x < b.start + (b.size : Int) * (b.num : Int))

/-- Modelled from the spec: `bin_index_of(position)` is
`(position - start) / bin_size` (spec section 4.2). -/
def binIdx (b : Bins) (x : Int) : Nat :=
  ((x - b.start) / (b.size : Int)).toNat

/-- Left edge of bin `i`. -/
def binStart (b : Bins) (i : Nat) : Int := b.start + (i : Int) * (b.size : Int)

/-- Modelled from the spec: `get_bin_coverage(left, right)` (spec section 4.2)
returns, for the bin containing `left` and the bin containing `right`, the
fractional number of bases of the span falling in each boundary bin, and
returns nothing if either coordinate falls outside the covered region.  The
callers in sam.py use the result as `((start_bin, start_credit),
(end_bin, end_credit))`. -/
def getBinCoverage (b : Bins) (left right : Int) : Option ((Nat × ℚ) × (Nat × ℚ)) :=
  if inRegion b left && inRegion b right then
    let i := binIdx b left
    let j := binIdx b right
    some ((i, ((min right (binStart b (i + 1)) - left : Int) : ℚ)),
          (j, ((right - max left (binStart b j) : Int) : ℚ)))
  else none

/-- A successful `get_bin_coverage` means both coordinates are in the region
and the two bin indices are the indices of the bins containing them. -/
theorem getBinCoverage_some (b : Bins) (l r : Int) (cov : (Nat × ℚ) × (Nat × ℚ))
    (h : getBinCoverage b l r = some cov) :
    inRegion b l = true ∧ inRegion b r = true ∧
    cov.1.1 = binIdx b l ∧ cov.2.1 = binIdx b r := by
  unfold getBinCoverage at h
  by_cases hin : inRegion b l && inRegion b r
  · rw [if_pos hin] at h
    simp only [Option.some.injEq] at h
    subst h
    simp only [Bool.and_eq_true] at hin
    exact ⟨hin.1, hin.2, rfl, rfl⟩
  · rw [if_neg hin] at h
    exact absurd h (by simp)

/-- `get_bin_coverage` on a degenerate one-point span inside the region always
succeeds, with both bin indices equal to the index of the containing bin. -/
theorem getBinCoverage_point (b : Bins) (x : Int) (h : inRegion b x = true) :
    getBinCoverage b x x =
      some ((binIdx b x, ((min x (binStart b (binIdx b x + 1)) - x : Int) : ℚ)),
            (binIdx b x, ((x - max x (binStart b (binIdx b x)) : Int) : ℚ))) := by
  unfold getBinCoverage
  rw [if_pos (by rw [h]; rfl)]

/-! ### SamEntry flag predicates (sam.py lines 60-108) -/

/-- sam.py `has_flag`-style bit test, as a boolean. -/
def hasFlagB (e : SamEntry) (f : Nat) : Bool := (e.flag &&& f) != 0

/-- sam.py `is_rvs`. -/
def isRvs (e : SamEntry) : Bool := hasFlagB e readReverseFlag

/-- sam.py `has_unmapped_mate`. -/
def hasUnmappedMate (e : SamEntry) : Bool := hasFlagB e mateUnmappedFlag

/-- sam.py `mate_same_strand` (lines 73-75): both reverse, or both forward. -/
def mateSameStrand (e : SamEntry) : Bool :=
  (hasFlagB e readReverseFlag && hasFlagB e mateReverseFlag) ||
  (!hasFlagB e readReverseFlag && !hasFlagB e mateReverseFlag)

/-- sam.py `is_inverted` (lines 78-84): forward with negative template length,
or reverse with positive template length. -/
def isInverted (e : SamEntry) : Bool :=
  if !(hasFlagB e readReverseFlag) then decide (e.tlen < 0)
  else decide (0 < e.tlen)

/-! ### AlignStats columns (sam.py lines 165-173 and 130-133) -/

def cREADS : Nat := 0

def cORPHANED : Nat := 1

def cINVERTED : Nat := 2

def cSAMESTRAND : Nat := 3

def cSECONDARY : Nat := 4

def cSUPPLEMENTARY : Nat := 5

def cCLIPPED : Nat := 6

def cDIFFMOL : Nat := 7

def dTOTAL : Nat := 0

def dMAPQLTT : Nat := 1

def dMAPQ0 : Nat := 2

/-- The per-breakpoint mutable state of `AlignStats` for one binning scheme:
the depth matrix (bin × depth tier), the categorical counter matrix
(bin × `aln_stats_cols`), and the per-bin forward/reverse insert-size lists. -/
structure AlnState where
  depths : Nat → Nat → ℚ
  aln : Nat → Nat → Nat
  fwdInserts : Nat → List Int
  rvsInserts : Nat → List Int

/-- sam.py `AlignStats.add_to_depth` (lines 196-205): the two boundary bins
receive their fractional credits, the fully covered bins in between receive
the full bin size, in each of the given depth-tier columns. -/
def addToDepth (b : Bins) (dep : Nat → Nat → ℚ) (cov : (Nat × ℚ) × (Nat × ℚ))
    (cols : List Nat) : Nat → Nat → ℚ :=
  fun i j =>
    dep i j +
      (if j ∈ cols then
        (if i = cov.1.1 then cov.1.2 else 0) +
        (if i = cov.2.1 then cov.2.2 else 0) +
        (if cov.1.1 < i ∧ i < cov.2.1 then (b.size : ℚ) else 0)
      else 0)

/-- sam.py `AlignStats.add_to_aln_stats` (lines 207-210): every bin from the
start boundary bin to the end boundary bin inclusive is incremented by exactly
1 in each of the given columns. -/
def addToAlnStats (a : Nat → Nat → Nat) (cov : (Nat × ℚ) × (Nat × ℚ))
    (cols : List Nat) : Nat → Nat → Nat :=
  fun i j => if (cov.1.1 ≤ i ∧ i ≤ cov.2.1) ∧ j ∈ cols then a i j + 1 else a i j

/-- Append a value to the list stored at index `i` (sam.py
`self.fwd_inserts[idx][bin].append(...)`). -/
def appendAt (f : Nat → List Int) (i : Nat) (v : Int) : Nat → List Int :=
  fun j => if j = i then f j ++ [v] else f j

/-- The always-applied part of `aln_cols` built in sam.py `process`
lines 227-233: `reads`, then `secondary`, `supplementary` and `clipped` as
their conditions hold. -/
def alnColsBase (e : SamEntry) (clipThresh : Nat) : List Nat :=
  let c0 := [cREADS]
  let c1 := if hasFlagB e secondaryFlag then c0 ++ [cSECONDARY] else c0
  let c2 := if hasFlagB e supplementaryFlag then c1 ++ [cSUPPLEMENTARY] else c1
  if clipThresh ≤ getNumClipped e then c2 ++ [cCLIPPED] else c2

/-- The full `aln_cols` list built in sam.py `process` lines 227-246: the
always-applied columns followed by the single evidence-intent column chosen by
the `if`/`elif` chain (or none of the four for a correctly oriented pair). -/
def alnCols (e : SamEntry) (clipThresh : Nat) : List Nat :=
  if hasUnmappedMate e then alnColsBase e clipThresh ++ [cORPHANED]
  else if e.mateDiffMolecule then alnColsBase e clipThresh ++ [cDIFFMOL]
  else if mateSameStrand e then alnColsBase e clipThresh ++ [cSAMESTRAND]
  else if isInverted e then alnColsBase e clipThresh ++ [cINVERTED]
  else alnColsBase e clipThresh

/-- sam.py `AlignStats.process` (lines 212-258) for one binning scheme: skip
when `get_bin_coverage` returns nothing; credit the depth tiers; build
`aln_cols` through the `if`/`elif` classification chain; for a correctly
oriented pair with nonzero template length and mapping quality above the
threshold, append the insert-size sample (negated template length into the
reverse list at the bin of `right` when reverse-strand, template length into
the forward list at the bin of `left` otherwise), where a failed one-point
`get_bin_coverage` lookup `continue`s, skipping the `add_to_aln_stats` call;
finally increment the chosen columns over the spanned bins. -/
def processOne (b : Bins) (mapQT clipThresh : Nat) (st : AlnState)
    (e : SamEntry) : AlnState :=
  match getBinCoverage b e.left e.right with
  | none => st
  | some cov =>
    let depthCols :=
      [dTOTAL] ++ (if e.mapQ ≤ mapQT then (if e.mapQ = 0 then [dMAPQ0] else [dMAPQLTT]) else [])
    let st1 : AlnState := { st with depths := addToDepth b st.depths cov depthCols }
    let base := alnColsBase e clipThresh
    if hasUnmappedMate e then
      { st1 with aln := addToAlnStats st1.aln cov (base ++ [cORPHANED]) }
    else if e.mateDiffMolecule then
      { st1 with aln := addToAlnStats st1.aln cov (base ++ [cDIFFMOL]) }
    else if mateSameStrand e then
      { st1 with aln := addToAlnStats st1.aln cov (base ++ [cSAMESTRAND]) }
    else if isInverted e then
      { st1 with aln := addToAlnStats st1.aln cov (base ++ [cINVERTED]) }
    else
      if e.tlen ≠ 0 ∧ mapQT < e.mapQ then
        if isRvs e then
          match getBinCoverage b e.right e.right with
          | none => st1
          | some insCov =>
            { st1 with
              rvsInserts := appendAt st1.rvsInserts insCov.2.1 (-1 * e.tlen),
              aln := addToAlnStats st1.aln cov base }
        else
          match getBinCoverage b e.left e.left with
          | none => st1
          | some insCov =>
            { st1 with
              fwdInserts := appendAt st1.fwdInserts insCov.1.1 e.tlen,
              aln := addToAlnStats st1.aln cov base }
      else
        { st1 with aln := addToAlnStats st1.aln cov base }

/-- Membership in the always-applied column list: the four evidence-intent
columns never occur there, and `secondary` / `supplementary` / `clipped`
occur exactly when their conditions hold. -/
theorem alnColsBase_mem (e : SamEntry) (clipThresh : Nat) :
    cORPHANED ∉ alnColsBase e clipThresh ∧
    cDIFFMOL ∉ alnColsBase e clipThresh ∧
    cSAMESTRAND ∉ alnColsBase e clipThresh ∧
    cINVERTED ∉ alnColsBase e clipThresh ∧
    (cSECONDARY ∈ alnColsBase e clipThresh ↔ hasFlagB e secondaryFlag = true) ∧
    (cSUPPLEMENTARY ∈ alnColsBase e clipThresh ↔ hasFlagB e supplementaryFlag = true) ∧
    (cCLIPPED ∈ alnColsBase e clipThresh ↔ clipThresh ≤ getNumClipped e) := by
  unfold alnColsBase
  by_cases h1 : hasFlagB e secondaryFlag <;>
  by_cases h2 : hasFlagB e supplementaryFlag <;>
  by_cases h3 : clipThresh ≤ getNumClipped e <;>
  simp [h1, h2, h3, cREADS, cORPHANED, cDIFFMOL, cSAMESTRAND, cINVERTED,
    cSECONDARY, cSUPPLEMENTARY, cCLIPPED]

/-- Claim C2: for every alignment record processed against a binning scheme
that yields a coverage result, the columns actually recorded by `process` are
exactly `alnCols`, and within them exactly one of the five evidence-intent
categories {orphaned, diffmol, samestrand, inverted, correctly-oriented}
holds, chosen in the priority order mate-unmapped, then different contig,
then same strand, then inverted, then correctly oriented (the last not
tallied); the always-applied columns (secondary, supplementary, clipped at or
above threshold) are present independently, exactly per their own flags. -/
theorem C2_classification (b : Bins) (mapQT clipThresh : Nat) (st : AlnState)
    (e : SamEntry) (cov : (Nat × ℚ) × (Nat × ℚ))
    (h : getBinCoverage b e.left e.right = some cov) :
    (processOne b mapQT clipThresh st e).aln =
      addToAlnStats st.aln cov (alnCols e clipThresh) ∧
    (cORPHANED ∈ alnCols e clipThresh ↔ hasUnmappedMate e = true) ∧
    (cDIFFMOL ∈ alnCols e clipThresh ↔
      (hasUnmappedMate e = false ∧ e.mateDiffMolecule = true)) ∧
    (cSAMESTRAND ∈ alnCols e clipThresh ↔
      (hasUnmappedMate e = false ∧ e.mateDiffMolecule = false ∧
       mateSameStrand e = true)) ∧
    (cINVERTED ∈ alnCols e clipThresh ↔
      (hasUnmappedMate e = false ∧ e.mateDiffMolecule = false ∧
       mateSameStrand e = false ∧ isInverted e = true)) ∧
    ((cORPHANED ∉ alnCols e clipThresh ∧ cDIFFMOL ∉ alnCols e clipThresh ∧
      cSAMESTRAND ∉ alnCols e clipThresh ∧ cINVERTED ∉ alnCols e clipThresh) ↔
      (hasUnmappedMate e = false ∧ e.mateDiffMolecule = false ∧
       mateSameStrand e = false ∧ isInverted e = false)) ∧
    (cSECONDARY ∈ alnCols e clipThresh ↔ hasFlagB e secondaryFlag = true) ∧
    (cSUPPLEMENTARY ∈ alnCols e clipThresh ↔ hasFlagB e supplementaryFlag = true) ∧
    (cCLIPPED ∈ alnCols e clipThresh ↔ clipThresh ≤ getNumClipped e) := by
  obtain ⟨hl, hr, _, _⟩ := getBinCoverage_some b e.left e.right cov h
  obtain ⟨b1, b2, b3, b4, b5, b6, b7⟩ := alnColsBase_mem e clipThresh
  refine ⟨?_, ?_⟩
  · unfold processOne
    rw [h]
    by_cases hu : hasUnmappedMate e
    · simp [alnCols, hu]
    · by_cases hd : e.mateDiffMolecule
      · simp [alnCols, hu, hd]
      · by_cases hs : mateSameStrand e
        · simp [alnCols, hu, hd, hs]
        · by_cases hi : isInverted e
          · simp [alnCols, hu, hd, hs, hi]
          · by_cases hg : e.tlen ≠ 0 ∧ mapQT < e.mapQ
            · by_cases hrv : isRvs e
              · simp [alnCols, hu, hd, hs, hi, hg, hrv,
                  getBinCoverage_point b e.right hr]
              · simp [alnCols, hu, hd, hs, hi, hg, hrv,
                  getBinCoverage_point b e.left hl]
            · simp [alnCols, hu, hd, hs, hi, hg]
  · simp only [cORPHANED, cDIFFMOL, cSAMESTRAND, cINVERTED,
      cSECONDARY, cSUPPLEMENTARY, cCLIPPED] at b1 b2 b3 b4 b5 b6 b7 ⊢
    by_cases hu : hasUnmappedMate e <;>
    by_cases hd : e.mateDiffMolecule <;>
    by_cases hs : mateSameStrand e <;>
    by_cases hi : isInverted e <;>
    simp [alnCols, hu, hd, hs, hi, b1, b2, b3, b4, b5, b6, b7,
      cORPHANED, cDIFFMOL, cSAMESTRAND, cINVERTED,
      cSECONDARY, cSUPPLEMENTARY, cCLIPPED]

/-- Claim C3 (amended): for a correctly oriented pair (none of the four
discordance categories) with nonzero template length and mapping quality
strictly above the threshold, `process` appends the **negated** template
length to the reverse insert-size list of the single bin containing
`aligned_right` when the record is reverse-strand, and the template length
itself to the forward insert-size list of the single bin containing
`aligned_left` otherwise; records failing the gate, and records in any other
category, leave both insert-size stores unchanged. -/
theorem C3_amended (b : Bins) (mapQT clipThresh : Nat) (st : AlnState)
    (e : SamEntry) (cov : (Nat × ℚ) × (Nat × ℚ))
    (h : getBinCoverage b e.left e.right = some cov) :
    ((hasUnmappedMate e = false ∧ e.mateDiffMolecule = false ∧
      mateSameStrand e = false ∧ isInverted e = false ∧
      e.tlen ≠ 0 ∧ mapQT < e.mapQ) →
      ((isRvs e = true →
          (processOne b mapQT clipThresh st e).rvsInserts =
            appendAt st.rvsInserts (binIdx b e.right) (-1 * e.tlen) ∧
          (processOne b mapQT clipThresh st e).fwdInserts = st.fwdInserts) ∧
       (isRvs e = false →
          (processOne b mapQT clipThresh st e).fwdInserts =
            appendAt st.fwdInserts (binIdx b e.left) e.tlen ∧
          (processOne b mapQT clipThresh st e).rvsInserts = st.rvsInserts))) ∧
    (¬(hasUnmappedMate e = false ∧ e.mateDiffMolecule = false ∧
       mateSameStrand e = false ∧ isInverted e = false ∧
       e.tlen ≠ 0 ∧ mapQT < e.mapQ) →
      (processOne b mapQT clipThresh st e).fwdInserts = st.fwdInserts ∧
      (processOne b mapQT clipThresh st e).rvsInserts = st.rvsInserts) := by
  obtain ⟨hl, hr, _, _⟩ := getBinCoverage_some b e.left e.right cov h
  constructor
  · rintro ⟨hu, hd, hs, hi, ht, hq⟩
    constructor
    · intro hrv
      unfold processOne
      rw [h]
      simp [hu, hd, hs, hi, ht, hq, hrv, getBinCoverage_point b e.right hr]
    · intro hrv
      unfold processOne
      rw [h]
      simp [hu, hd, hs, hi, ht, hq, hrv, getBinCoverage_point b e.left hl]
  · intro hng
    unfold processOne
    rw [h]
    by_cases hu : hasUnmappedMate e
    · simp [hu]
    · by_cases hd : e.mateDiffMolecule
      · simp [hu, hd]
      · by_cases hs : mateSameStrand e
        · simp [hu, hd, hs]
        · by_cases hi : isInverted e
          · simp [hu, hd, hs, hi]
          · have hgf : ¬(e.tlen ≠ 0 ∧ mapQT < e.mapQ) := by
              intro hg
              exact hng ⟨by simpa using hu, by simpa using hd, by simpa using hs,
                by simpa using hi, hg.1, hg.2⟩
            simp [hu, hd, hs, hi, hgf]

/-- A concrete binning scheme: chromosome 1, start 0, 10 bins of 100 bp. -/
def b0 : Bins := { chrom := "1", start := 0, size := 100, num := 10 }

/-- An empty accumulator state. -/
def st0 : AlnState :=
  { depths := fun _ _ => 0, aln := fun _ _ => 0,
    fwdInserts := fun _ => [], rvsInserts := fun _ => [] }

/-- A reverse-strand correctly oriented record with template length -300:
flag 16 (reverse), mate mapped on the same molecule and opposite strand,
mapping quality 60, CIGAR 50M at position 10 (span 10..60). -/
def eC3rvs : SamEntry :=
  { flag := 16, mateDiffMolecule := false, pos := 10, mapQ := 60,
    cigar := [(50, 'M')], tlen := -300, left := 10, right := 60 }

/-- A forward-strand correctly oriented record with template length 350. -/
def eC3fwd : SamEntry :=
  { flag := 32, mateDiffMolecule := false, pos := 10, mapQ := 60,
    cigar := [(50, 'M')], tlen := 350, left := 10, right := 60 }

/-- Claim C3 (refuting as stated): for the reverse-strand record with
template length -300, the value appended to the reverse insert-size list is
300 = -1 × (-300), not the template length itself, so "the template length is
recorded" is false for reverse-strand records. -/
theorem C3_counterexample :
    eC3rvs.tlen = -300 ∧
    (processOne b0 30 1 st0 eC3rvs).rvsInserts (binIdx b0 eC3rvs.right) = [300] ∧
    (processOne b0 30 1 st0 eC3rvs).rvsInserts (binIdx b0 eC3rvs.right) ≠
      [eC3rvs.tlen] := by
  refine ⟨rfl, by decide, by decide⟩

/-- Witness for the amended C3 at the forward-strand record `eC3fwd`. -/
theorem C3_witness :
    (processOne b0 30 1 st0 eC3fwd).fwdInserts =
      appendAt st0.fwdInserts (binIdx b0 eC3fwd.left) eC3fwd.tlen ∧
    (processOne b0 30 1 st0 eC3fwd).rvsInserts = st0.rvsInserts :=
  ((C3_amended b0 30 1 st0 eC3fwd ((0, (50 : ℚ)), (0, (50 : ℚ))) (by decide)).1
    (by decide)).2 (by decide)

/-- Witness for C2 at the record `eC3fwd` (a correctly oriented pair):
the recorded columns are exactly `alnCols`, and none of the four discordance
columns is attributed. -/
theorem C2_witness :
    (processOne b0 30 1 st0 eC3fwd).aln =
      addToAlnStats st0.aln ((0, (50 : ℚ)), (0, (50 : ℚ))) (alnCols eC3fwd 1) ∧
    (cORPHANED ∉ alnCols eC3fwd 1 ∧ cDIFFMOL ∉ alnCols eC3fwd 1 ∧
     cSAMESTRAND ∉ alnCols eC3fwd 1 ∧ cINVERTED ∉ alnCols eC3fwd 1) := by
  have h := C2_classification b0 30 1 st0 eC3fwd ((0, (50 : ℚ)), (0, (50 : ℚ)))
    (by decide)
  exact ⟨h.1, h.2.2.2.2.2.1.mpr (by decide)⟩

/-! ## Breakend events (vcf.py lines 467-488, `BND_Event`) -/

/-- A breakend locus: (chromosome, position), vcf.py `self.loci` entries. -/
abbrev Locus := String × Int

/-- vcf.py `BND_Event.__init__` lines 476-480: a call is proximal to the
locus list when some existing locus is on the same chromosome and within
±20 bp (`delta = 20`) of the call's position. -/
def isProximal (loci : List Locus) (chrom : String) (pos : Int) : Bool :=
  loci.any (fun l => decide (l.1 = chrom) && decide (l.2 - 20 ≤ pos) &&
    decide (pos ≤ l.2 + 20))

/-- One step of vcf.py `BND_Event.__init__` lines 473-488 (with the source's
default `delta = 20`, `max_loci = 2`): append the first call's locus; absorb a
proximal call; append a new locus while fewer than 2 exist; otherwise raise
(`ValueError`, modelled as `Except.error ()`). -/
def bndEventStep (loci : List Locus) (c : Locus) : Except Unit (List Locus) :=
  if loci.isEmpty then Except.ok (loci ++ [c])
  else if isProximal loci c.1 c.2 then Except.ok loci
  else if loci.length < 2 then Except.ok (loci ++ [c])
  else Except.error ()

/-- The locus-list fold of `BND_Event.__init__` over the remaining calls,
starting from an accumulated locus list. -/
def bndEventLociAux : List Locus → List Locus → Except Unit (List Locus)
  | loci, [] => Except.ok loci
  | loci, c :: cs =>
    match bndEventStep loci c with
    | Except.ok l => bndEventLociAux l cs
    | Except.error e => Except.error e

/-- vcf.py `BND_Event.__init__`: the distinct-locus list derived from an
ordered list of member calls, or an error when a 3rd locus would be needed. -/
def bndEventLoci (calls : List Locus) : Except Unit (List Locus) :=
  bndEventLociAux [] calls

/-- The `try ... except ValueError: pass` loop of vcf.py `get_events`
(lines 450-465), restricted to event construction: keep each group whose
`BND_Event` constructs, silently discard each group whose construction
raises. -/
def resolveGroups : List (List Locus) → List (List Locus)
  | [] => []
  | g :: gs =>
    match bndEventLoci g with
    | Except.ok _ => g :: resolveGroups gs
    | Except.error _ => resolveGroups gs

/-- A successful step keeps the locus list within the 2-locus cap. -/
theorem bndEventStep_ok_length (loci : List Locus) (c : Locus) (l : List Locus)
    (h : bndEventStep loci c = Except.ok l) (hlen : loci.length ≤ 2) :
    l.length ≤ 2 := by
  unfold bndEventStep at h
  by_cases h0 : loci.isEmpty
  · rw [if_pos h0] at h
    simp only [Except.ok.injEq] at h
    subst h
    rw [List.isEmpty_iff] at h0
    subst h0
    simp
  · rw [if_neg h0] at h
    by_cases h1 : isProximal loci c.1 c.2
    · rw [if_pos h1] at h
      simp only [Except.ok.injEq] at h
      subst h
      exact hlen
    · rw [if_neg h1] at h
      by_cases h2 : loci.length < 2
      · rw [if_pos h2] at h
        simp only [Except.ok.injEq] at h
        subst h
        simp only [List.length_append, List.length_singleton]
        omega
      · rw [if_neg h2] at h
        exact absurd h (by simp)

/-- A step fails exactly from a full (2-locus) list with a non-proximal call. -/
theorem bndEventStep_error (loci : List Locus) (c : Locus)
    (hlen : loci.length ≤ 2) :
    bndEventStep loci c = Except.error () ↔
      (loci.length = 2 ∧ isProximal loci c.1 c.2 = false) := by
  unfold bndEventStep
  by_cases h0 : loci.isEmpty
  · rw [if_pos h0]
    rw [List.isEmpty_iff] at h0
    subst h0
    simp
  · rw [if_neg h0]
    by_cases h1 : isProximal loci c.1 c.2
    · rw [if_pos h1]
      simp [h1]
    · rw [if_neg h1]
      by_cases h2 : loci.length < 2
      · rw [if_pos h2]
        constructor
        · intro h
          exact absurd h (by simp)
        · rintro ⟨ha, _⟩
          omega
      · rw [if_neg h2]
        have : loci.length = 2 := by omega
        simp [this, h1]

/-- Every successful locus-list fold stays within the 2-locus cap. -/
theorem bndEventLociAux_ok_length :
    ∀ (cs loci l : List Locus), loci.length ≤ 2 →
      bndEventLociAux loci cs = Except.ok l → l.length ≤ 2 := by
  intro cs
  induction cs with
  | nil =>
    intro loci l hlen h
    simp only [bndEventLociAux, Except.ok.injEq] at h
    subst h
    exact hlen
  | cons c cs ih =>
    intro loci l hlen h
    unfold bndEventLociAux at h
    cases hstep : bndEventStep loci c with
    | ok l' =>
      rw [hstep] at h
      exact ih l' l (bndEventStep_ok_length loci c l' hstep hlen) h
    | error e =>
      rw [hstep] at h
      exact absurd h (by simp)

/-- The fold fails exactly when some call is reached with the locus list
already holding 2 loci and matching none of them. -/
theorem bndEventLociAux_error_iff :
    ∀ (cs loci : List Locus), loci.length ≤ 2 →
      ((bndEventLociAux loci cs).isOk = false ↔
        ∃ pre c post l, cs = pre ++ c :: post ∧
          bndEventLociAux loci pre = Except.ok l ∧ l.length = 2 ∧
          isProximal l c.1 c.2 = false) := by
  intro cs
  induction cs with
  | nil =>
    intro loci hlen
    simp only [bndEventLociAux, Except.isOk]
    constructor
    · intro h
      exact Bool.noConfusion h
    · rintro ⟨pre, c, post, l, hcs, _⟩
      exact absurd hcs.symm (List.append_ne_nil_of_right_ne_nil pre (by simp))
  | cons c cs ih =>
    intro loci hlen
    rw [show bndEventLociAux loci (c :: cs) =
      (match bndEventStep loci c with
       | Except.ok l => bndEventLociAux l cs
       | Except.error e => Except.error e) from rfl]
    cases hstep : bndEventStep loci c with
    | ok l' =>
      have hlen' := bndEventStep_ok_length loci c l' hstep hlen
      rw [ih l' hlen']
      constructor
      · rintro ⟨pre, c', post, l, hcs, hpre, hl2, hprox⟩
        refine ⟨c :: pre, c', post, l, by rw [hcs]; rfl, ?_, hl2, hprox⟩
        rw [show bndEventLociAux loci (c :: pre) =
          (match bndEventStep loci c with
           | Except.ok l => bndEventLociAux l pre
           | Except.error e => Except.error e) from rfl, hstep]
        exact hpre
      · rintro ⟨pre, c', post, l, hcs, hpre, hl2, hprox⟩
        cases pre with
        | nil =>
          simp only [List.nil_append, List.cons.injEq] at hcs
          obtain ⟨hc, _⟩ := hcs
          simp only [bndEventLociAux, Except.ok.injEq] at hpre
          subst hpre
          subst hc
          rw [(bndEventStep_error loci c hlen).mpr ⟨hl2, hprox⟩] at hstep
          exact absurd hstep (by simp)
        | cons c0 pre' =>
          simp only [List.cons_append, List.cons.injEq] at hcs
          obtain ⟨hc0, hcs'⟩ := hcs
          subst hc0
          rw [show bndEventLociAux loci (c :: pre') =
            (match bndEventStep loci c with
             | Except.ok l => bndEventLociAux l pre'
             | Except.error e => Except.error e) from rfl, hstep] at hpre
          exact ⟨pre', c', post, l, hcs', hpre, hl2, hprox⟩
    | error e =>
      simp only [Except.isOk]
      constructor
      · intro _
        obtain ⟨hl2, hprox⟩ := (bndEventStep_error loci c hlen).mp (by
          cases e
          exact hstep)
        exact ⟨[], c, cs, loci, rfl, rfl, hl2, hprox⟩
      · intro _
        rfl

/-- `get_events` keeps exactly the groups whose event construction succeeds. -/
theorem resolveGroups_eq_filter (gs : List (List Locus)) :
    resolveGroups gs = gs.filter (fun g => (bndEventLoci g).isOk) := by
  induction gs with
  | nil => rfl
  | cons g gs ih =>
    unfold resolveGroups
    cases h : bndEventLoci g with
    | ok l => simp [List.filter, h, Except.isOk, Except.toBool, ih]
    | error e => simp [List.filter, h, Except.isOk, Except.toBool, ih]

/-- Claim C6: every successfully constructed breakend event has at most 2
distinct loci; construction fails exactly when some call's position matches
no existing locus (±20 bp, same chromosome) while the locus list already
holds 2 loci; and event resolution silently discards rejected groups, keeping
exactly the constructible ones. -/
theorem C6_event_loci (gs : List (List Locus)) :
    (∀ g, g ∈ gs → ∀ l, bndEventLoci g = Except.ok l → l.length ≤ 2) ∧
    (∀ g, g ∈ gs → ((bndEventLoci g).isOk = false ↔
      ∃ pre c post l, g = pre ++ c :: post ∧
        bndEventLoci pre = Except.ok l ∧ l.length = 2 ∧
        isProximal l c.1 c.2 = false)) ∧
    resolveGroups gs = gs.filter (fun g => (bndEventLoci g).isOk) := by
  refine ⟨?_, ?_, resolveGroups_eq_filter gs⟩
  · intro g _ l h
    exact bndEventLociAux_ok_length g [] l (by decide) h
  · intro g _
    exact bndEventLociAux_error_iff g [] (by decide)

/-- Witness for C6: a 2-locus group constructs (with ≤ 2 loci), and a
3-locus group is rejected and silently dropped by resolution. -/
theorem C6_witness :
    (∀ l, bndEventLoci [("1", 1000), ("2", 5000)] = Except.ok l → l.length ≤ 2) ∧
    ((bndEventLoci [("1", 0), ("1", 100), ("1", 200)]).isOk = false ↔
      ∃ pre c post l, ([(("1" : String), (0 : Int)), ("1", 100), ("1", 200)]) =
          pre ++ c :: post ∧
        bndEventLoci pre = Except.ok l ∧ l.length = 2 ∧
        isProximal l c.1 c.2 = false) ∧
    resolveGroups [[("1", 1000), ("2", 5000)], [("1", 0), ("1", 100), ("1", 200)]] =
      List.filter (fun g => (bndEventLoci g).isOk)
        [[("1", 1000), ("2", 5000)], [("1", 0), ("1", 100), ("1", 200)]] := by
  obtain ⟨h1, h2, h3⟩ := C6_event_loci
    [[("1", 1000), ("2", 5000)], [("1", 0), ("1", 100), ("1", 200)]]
  exact ⟨h1 _ (by simp), h2 _ (by simp), h3⟩

/-- The hypothesis under which the greedy locus absorption is
order-independent: any two calls of the group that fall within each other's
±20 bp same-chromosome window are at the same position (so proximity classes
collapse to exact position equality). -/
def ProxEq (g : List Locus) : Prop :=
  ∀ c ∈ g, ∀ d ∈ g, c.1 = d.1 → c.2 - 20 ≤ d.2 → d.2 ≤ c.2 + 20 → c.2 = d.2

/-- Under `ProxEq`, a call is proximal to the accumulated loci exactly when it
already is one of them. -/
theorem isProximal_eq_mem (g loci : List Locus) (c : Locus)
    (hsub : ∀ x ∈ loci, x ∈ g) (hc : c ∈ g) (hp : ProxEq g) :
    isProximal loci c.1 c.2 = true ↔ c ∈ loci := by
  unfold isProximal
  rw [List.any_eq_true]
  constructor
  · rintro ⟨l, hl, hcond⟩
    simp only [Bool.and_eq_true, decide_eq_true_eq] at hcond
    obtain ⟨⟨h1, h2⟩, h3⟩ := hcond
    have h4 := hp l (hsub l hl) c hc h1 h2 h3
    have h5 : l = c := by
      cases l
      cases c
      simp_all
    rw [← h5]
    exact hl
  · intro hmem
    refine ⟨c, hmem, ?_⟩
    simp only [Bool.and_eq_true, decide_eq_true_eq]
    exact ⟨⟨trivial, by omega⟩, by omega⟩

/-- Unfolding equation for the cons case of the locus fold. -/
theorem bndEventLociAux_cons (loci : List Locus) (c : Locus) (cs : List Locus) :
    bndEventLociAux loci (c :: cs) =
      match bndEventStep loci c with
      | Except.ok l => bndEventLociAux l cs
      | Except.error e => Except.error e := rfl

/-- Under `ProxEq`, the fold of `BND_Event.__init__` behaves like capped
deduplication: a successful run returns exactly the distinct calls, and it
succeeds exactly when the group holds at most 2 distinct loci. -/
theorem bndAux_proxeq (g : List Locus) (hp : ProxEq g) :
    ∀ (cs loci : List Locus), (∀ x ∈ loci, x ∈ g) → (∀ x ∈ cs, x ∈ g) →
      loci.Nodup → loci.length ≤ 2 →
      ((∀ l, bndEventLociAux loci cs = Except.ok l →
        (l.Nodup ∧ ∀ x, x ∈ l ↔ (x ∈ loci ∨ x ∈ cs))) ∧
      ((bndEventLociAux loci cs).isOk = true ↔
        (loci.toFinset ∪ cs.toFinset).card ≤ 2)) := by
  intro cs
  induction cs with
  | nil =>
    intro loci hsub _ hnd hlen
    constructor
    · intro l h
      simp only [bndEventLociAux, Except.ok.injEq] at h
      subst h
      exact ⟨hnd, by simp⟩
    · simp only [bndEventLociAux]
      constructor
      · intro _
        simpa [List.card_toFinset, hnd.dedup] using hlen
      · intro _
        rfl
  | cons c cs ih =>
    intro loci hsub hcs hnd hlen
    have hcg : c ∈ g := hcs c (by simp)
    have hcsg : ∀ x ∈ cs, x ∈ g := fun x hx => hcs x (by simp [hx])
    by_cases hE : loci.isEmpty
    · rw [List.isEmpty_iff] at hE
      subst hE
      have hstep : bndEventStep [] c = Except.ok [c] := by
        unfold bndEventStep
        simp
      simp only [bndEventLociAux_cons, hstep]
      obtain ⟨ih1, ih2⟩ := ih [c] (by simpa using hcg) hcsg (by simp) (by simp)
      constructor
      · intro l h
        obtain ⟨hl1, hl2⟩ := ih1 l h
        refine ⟨hl1, fun x => ?_⟩
        rw [hl2 x]
        simp
      · rw [ih2]
        have : ([c].toFinset ∪ cs.toFinset) =
            (([] : List Locus).toFinset ∪ (c :: cs).toFinset) := by
          ext x
          simp
        rw [this]
    · have hprox := isProximal_eq_mem g loci c hsub hcg hp
      by_cases hpx : isProximal loci c.1 c.2
      · have hcmem : c ∈ loci := hprox.mp hpx
        have hstep : bndEventStep loci c = Except.ok loci := by
          unfold bndEventStep
          rw [if_neg (by simp [hE]), if_pos hpx]
        simp only [bndEventLociAux_cons, hstep]
        obtain ⟨ih1, ih2⟩ := ih loci hsub hcsg hnd hlen
        constructor
        · intro l h
          obtain ⟨hl1, hl2⟩ := ih1 l h
          refine ⟨hl1, fun x => ?_⟩
          rw [hl2 x]
          constructor
          · rintro (hx | hx)
            · exact Or.inl hx
            · exact Or.inr (by simp [hx])
          · rintro (hx | hx)
            · exact Or.inl hx
            · rcases List.mem_cons.mp hx with hx | hx
              · subst hx
                exact Or.inl hcmem
              · exact Or.inr hx
        · rw [ih2]
          have : (loci.toFinset ∪ cs.toFinset) =
              (loci.toFinset ∪ (c :: cs).toFinset) := by
            ext x
            simp only [Finset.mem_union, List.mem_toFinset, List.mem_cons]
            constructor
            · tauto
            · rintro (hx | (hx | hx))
              · exact Or.inl hx
              · subst hx
                exact Or.inl hcmem
              · exact Or.inr hx
          rw [this]
      · have hcmem : c ∉ loci := fun hmem => hpx (hprox.mpr hmem)
        by_cases hlen2 : loci.length < 2
        · have hstep : bndEventStep loci c = Except.ok (loci ++ [c]) := by
            unfold bndEventStep
            rw [if_neg (by simp [hE]), if_neg (by simp [hpx]), if_pos hlen2]
          simp only [bndEventLociAux_cons, hstep]
          obtain ⟨ih1, ih2⟩ := ih (loci ++ [c])
            (by
              intro x hx
              rcases List.mem_append.mp hx with hx | hx
              · exact hsub x hx
              · simp only [List.mem_singleton] at hx
                subst hx
                exact hcg)
            hcsg
            (by simp [List.nodup_append, hnd, hcmem])
            (by simp only [List.length_append, List.length_singleton]; omega)
          constructor
          · intro l h
            obtain ⟨hl1, hl2⟩ := ih1 l h
            refine ⟨hl1, fun x => ?_⟩
            rw [hl2 x]
            simp only [List.mem_append, List.mem_singleton, List.mem_cons]
            tauto
          · rw [ih2]
            have : ((loci ++ [c]).toFinset ∪ cs.toFinset) =
                (loci.toFinset ∪ (c :: cs).toFinset) := by
              ext x
              simp only [Finset.mem_union, List.mem_toFinset, List.mem_append,
                List.mem_singleton, List.mem_cons]
              tauto
            rw [this]
        · have hstep : bndEventStep loci c = Except.error () := by
            unfold bndEventStep
            rw [if_neg (by simp [hE]), if_neg (by simp [hpx]), if_neg hlen2]
          simp only [bndEventLociAux_cons, hstep]
          constructor
          · intro l h
            exact absurd h (by simp)
          · constructor
            · intro h
              exact Bool.noConfusion h
            · intro hcard
              exfalso
              have hsubs : insert c loci.toFinset ⊆
                  loci.toFinset ∪ (c :: cs).toFinset := by
                intro x hx
                rcases Finset.mem_insert.mp hx with hx | hx
                · subst hx
                  simp
                · exact Finset.mem_union_left _ hx
              have hcardin : (insert c loci.toFinset).card = 3 := by
                rw [Finset.card_insert_of_not_mem (by simpa using hcmem)]
                rw [List.card_toFinset, hnd.dedup]
                omega
              have := Finset.card_le_card hsubs
              omega

/-- Under `ProxEq`, `BND_Event` construction yields exactly the distinct
member loci and succeeds exactly when there are at most 2 of them. -/
theorem bndEventLoci_proxeq (g : List Locus) (hp : ProxEq g) :
    (∀ l, bndEventLoci g = Except.ok l → ∀ x, x ∈ l ↔ x ∈ g) ∧
    ((bndEventLoci g).isOk = true ↔ g.toFinset.card ≤ 2) := by
  obtain ⟨h1, h2⟩ := bndAux_proxeq g hp g [] (by simp) (fun x hx => hx)
    List.nodup_nil (by simp)
  unfold bndEventLoci
  constructor
  · intro l hl x
    rw [(h1 l hl).2 x]
    simp
  · rw [h2]
    simp

/-- Claim C7 (amended): `BND_Event` construction is invariant under input
reordering — same success/failure and the same set of distinct loci —
provided any two proximal calls of the group share the same position
(`ProxEq`); without that proviso the greedy ±20 bp absorption is
order-dependent (see the counterexample). -/
theorem C7_amended (g g' : List Locus) (hperm : g.Perm g') (hp : ProxEq g) :
    (bndEventLoci g).isOk = (bndEventLoci g').isOk ∧
    ∀ l l', bndEventLoci g = Except.ok l → bndEventLoci g' = Except.ok l' →
      ∀ x, x ∈ l ↔ x ∈ l' := by
  have hp' : ProxEq g' := fun c hc d hd =>
    hp c (hperm.mem_iff.mpr hc) d (hperm.mem_iff.mpr hd)
  obtain ⟨hm, ho⟩ := bndEventLoci_proxeq g hp
  obtain ⟨hm', ho'⟩ := bndEventLoci_proxeq g' hp'
  have hfin : g.toFinset = g'.toFinset := by
    ext x
    simp [List.mem_toFinset, hperm.mem_iff]
  constructor
  · have hiff : ((bndEventLoci g).isOk = true) ↔ ((bndEventLoci g').isOk = true) := by
      rw [ho, ho', hfin]
    cases hA : (bndEventLoci g).isOk <;> cases hB : (bndEventLoci g').isOk <;>
      simp_all
  · intro l l' hl hl' x
    rw [hm l hl x, hm' l' hl' x, hperm.mem_iff]

/-- Claim C7 (refuting as stated): the lists `[0, 20, 40]` and `[20, 0, 40]`
on one chromosome are permutations of each other, both construct
successfully, but yield different locus sets ({0, 40} versus {20}). -/
theorem C7_counterexample :
    List.Perm [(("1" : String), (0 : Int)), ("1", 20), ("1", 40)]
      [("1", 20), ("1", 0), ("1", 40)] ∧
    bndEventLoci [(("1" : String), (0 : Int)), ("1", 20), ("1", 40)] =
      Except.ok [("1", 0), ("1", 40)] ∧
    bndEventLoci [(("1" : String), (20 : Int)), ("1", 0), ("1", 40)] =
      Except.ok [("1", 20)] ∧
    (("1", (0 : Int)) ∈ [(("1" : String), (0 : Int)), ("1", 40)] ∧
     ("1", (0 : Int)) ∉ [(("1" : String), (20 : Int))]) :=
  ⟨List.Perm.swap ("1", 20) ("1", 0) [("1", 40)], rfl, rfl, by decide, by decide⟩

/-- Witness for the amended C7 at a 2-locus group and its reversal. -/
theorem C7_witness :
    (bndEventLoci [(("1" : String), (1000 : Int)), ("2", 5000)]).isOk =
      (bndEventLoci [(("2" : String), (5000 : Int)), ("1", 1000)]).isOk ∧
    ∀ l l', bndEventLoci [(("1" : String), (1000 : Int)), ("2", 5000)] =
        Except.ok l →
      bndEventLoci [(("2" : String), (5000 : Int)), ("1", 1000)] =
        Except.ok l' →
      ∀ x, x ∈ l ↔ x ∈ l' :=
  C7_amended _ _ (List.Perm.swap ("2", 5000) ("1", 1000) [])
    (by unfold ProxEq; decide)

/-! ## BNDs graph (vcf.py lines 393-465) -/

/-- One parsed breakend call record (the fields of `BND_SV` used by the
`BNDs` bookkeeping; `'.'` sentinel fields become `none`). -/
structure BndSv where
  id : String
  mateId : Option String
  pairId : Option String
  eventId : Option String
  chrom : String
  pos : Int
deriving DecidableEq

/-- The `BNDs` container state (vcf.py lines 394-402): events by event id,
the pending no-event-id id set (modelled as an insertion-ordered list, since
Python's arbitrary `set.pop` order is unspecified), the record store, and the
`mates` / `pairs` link maps (association lists; a cons is a dict overwrite,
`List.lookup` finds the newest binding). -/
structure BNDState where
  events : List (String × List String)
  nonEvents : List String
  bnds : List (String × BndSv)
  mates : List (String × String)
  pairs : List (String × String)
deriving DecidableEq

def initBNDs : BNDState :=
  { events := [], nonEvents := [], bnds := [], mates := [], pairs := [] }

/-- Append `v` to the id list under `k`, preserving dict insertion order.
The source's dedup test (`if bnd_sv not in self.events[...]`, vcf.py line
409) compares the record object against a list of id strings, so it never
fires and the id is always appended. -/
def updateEvents (evs : List (String × List String)) (k v : String) :
    List (String × List String) :=
  match evs with
  | [] => [(k, [v])]
  | (k0, l) :: rest =>
    if k0 = k then (k0, l ++ [v]) :: rest else (k0, l) :: updateEvents rest k v

/-- vcf.py `BNDs.add_BND` (lines 404-426): store the record; file it under
its event id or into the pending set; then, if its `mate_id` is already
known, write the bidirectional link into `mates` — and if its `pair_id` is
already known, also write that link into `mates` (the source writes the pair
relation into `self.mates`, not `self.pairs`; `self.pairs` is never written
anywhere). -/
def addBND (st : BNDState) (b : BndSv) : BNDState :=
  let st1 : BNDState := { st with bnds := (b.id, b) :: st.bnds }
  let st2 : BNDState :=
    match b.eventId with
    | some e => { st1 with events := updateEvents st1.events e b.id }
    | none =>
      if b.id ∈ st1.nonEvents then st1
      else { st1 with nonEvents := st1.nonEvents ++ [b.id] }
  let st3 : BNDState :=
    match b.mateId with
    | some m =>
      if (st2.bnds.lookup m).isSome then
        { st2 with mates := (m, b.id) :: (b.id, m) :: st2.mates }
      else st2
    | none => st2
  match b.pairId with
  | some p =>
    if (st3.bnds.lookup p).isSome then
      { st3 with mates := (p, b.id) :: (b.id, p) :: st3.mates }
    else st3
  | none => st3

/-- vcf.py `BNDs.pop_non_event` (lines 430-447): pop one pending id, gather
its mate (discarding it from the pending set), then that mate's pair, then
the popped id's pair and that pair's mate, following the source's nested
conditionals.  Returns the gathered group and the remaining pending list. -/
def popNonEvent (st : BNDState) : List String × List String :=
  match st.nonEvents with
  | [] => ([], [])
  | ne :: rest =>
    let s1 : List String × List String :=
      match st.mates.lookup ne with
      | some m =>
        let b1 := [ne, m]
        let r1 := rest.filter (fun x => x ≠ m)
        match st.pairs.lookup m with
        | some pm =>
          if pm ∈ b1 then (b1, r1)
          else (b1 ++ [pm], r1.filter (fun x => x ≠ pm))
        | none => (b1, r1)
      | none => ([ne], rest)
    match st.pairs.lookup ne with
    | some pn =>
      let b3 := if pn ∈ s1.1 then s1.1 else s1.1 ++ [pn]
      match st.mates.lookup (b3.getLastD ne) with
      | some ml =>
        if ml ∈ b3 then (b3, s1.2)
        else (b3 ++ [ml], s1.2.filter (fun x => x ≠ ml))
      | none => (b3, s1.2)
    | none => s1

/-- The `while len(self.non_events) > 0` loop of vcf.py `get_events`
(lines 457-463), fuelled by the pending-list length (each pop strictly
shrinks it). -/
def drainNonEvents : Nat → BNDState → List (List String)
  | 0, _ => []
  | Nat.succ fuel, st =>
    match st.nonEvents with
    | [] => []
    | _ :: _ =>
      let pr := popNonEvent st
      pr.1 :: drainNonEvents fuel { st with nonEvents := pr.2 }

/-- The id groups from which vcf.py `get_events` attempts to build
`BND_Event`s: one group per registered event id, then the greedy groups
drained from the pending set. -/
def getEventGroups (st : BNDState) : List (List String) :=
  (st.events.map (fun p => p.2)) ++ drainNonEvents st.nonEvents.length st

/-- `add_BND` never writes the `pairs` map. -/
theorem addBND_pairs (st : BNDState) (b : BndSv) :
    (addBND st b).pairs = st.pairs := by
  unfold addBND
  cases b.eventId <;> cases b.mateId <;> cases b.pairId <;>
    simp only [] <;> (repeat' split) <;> rfl

/-- The failing input for C8: `A` with no links, `B` with `mate_id = A`,
`C` with `pair_id = B`, none with an event id. -/
def bndA : BndSv :=
  { id := "A", mateId := none, pairId := none, eventId := none,
    chrom := "1", pos := 1000 }

def bndB : BndSv :=
  { id := "B", mateId := some "A", pairId := none, eventId := none,
    chrom := "2", pos := 5000 }

def bndC : BndSv :=
  { id := "C", mateId := none, pairId := some "B", eventId := none,
    chrom := "2", pos := 5000 }

/-- Claim C8 (refuting): after adding the mate-linked pair (A, B) and the
pair-linked call C, the pair relation has been written into the `mates` map
(overwriting B's mate link with C) and the `pairs` map is empty — as it is
after every `add_BND` sequence — so resolution splits the mate-then-pair
chain {A, B, C} into the two groups [A, B] and [C, B] instead of grouping it
into one event. -/
theorem C8_bug :
    getEventGroups (addBND (addBND (addBND initBNDs bndA) bndB) bndC) =
      [["A", "B"], ["C", "B"]] ∧
    (addBND (addBND (addBND initBNDs bndA) bndB) bndC).pairs = [] ∧
    (addBND (addBND (addBND initBNDs bndA) bndB) bndC).mates.lookup "B" =
      some "C" ∧
    (∀ bs : List BndSv, (bs.foldl addBND initBNDs).pairs = []) := by
  refine ⟨by decide, by decide, by decide, ?_⟩
  intro bs
  suffices h : ∀ st : BNDState, (bs.foldl addBND st).pairs = st.pairs by
    exact h initBNDs
  induction bs with
  | nil => intro st; rfl
  | cons b bs ih =>
    intro st
    simp only [List.foldl_cons, ih, addBND_pairs]

/-! ## SV range query (vcf.py lines 96-117, `get_svs_in_range`) -/

/-- The fields of an indexed SV record used by the range query. -/
structure SvRec where
  pos : Int
  svEnd : Int
deriving DecidableEq

/-- The position scan of vcf.py `get_svs_in_range` (lines 98-108, the
`sample=None` path): walk the sorted position list, `break` at the first
position exceeding the query end, and keep each record at a visited position
unless its `pos` exceeds the query end or its `end` precedes the query
start. -/
def svsInRangeAux (svs : Int → List SvRec) (qstart qend : Int) :
    List Int → List SvRec
  | [] => []
  | p :: ps =>
    if qend < p then []
    else
      ((svs p).filter (fun sv =>
        decide (sv.pos ≤ qend) && decide (qstart ≤ sv.svEnd))) ++
        svsInRangeAux svs qstart qend ps

/-- vcf.py `get_svs_in_range(chrom, start, end)` restricted to one
chromosome's index: `positions` is the chromosome's sorted position list and
`svs` its position-to-records mapping. -/
def getSvsInRange (positions : List Int) (svs : Int → List SvRec)
    (qstart qend : Int) : List SvRec :=
  svsInRangeAux svs qstart qend positions

/-- Claim C9: given the index invariants (ascending sorted positions, each
record stored under its own `pos`), the range query returns exactly the
indexed records whose `[pos, end]` interval intersects `[start, end]`
(`pos ≤ end_query` and `start_query ≤ end`), in index order, the early exit
notwithstanding. -/
theorem C9_range_query (positions : List Int) (svs : Int → List SvRec)
    (qstart qend : Int)
    (hsort : positions.Pairwise (· ≤ ·))
    (hkey : ∀ p ∈ positions, ∀ sv ∈ svs p, sv.pos = p) :
    getSvsInRange positions svs qstart qend =
      (positions.bind svs).filter (fun sv =>
        decide (sv.pos ≤ qend) && decide (qstart ≤ sv.svEnd)) := by
  unfold getSvsInRange
  induction positions with
  | nil => rfl
  | cons p ps ih =>
    have hsort' := (List.pairwise_cons.mp hsort).2
    have hle : ∀ q ∈ ps, p ≤ q := (List.pairwise_cons.mp hsort).1
    have hkey' : ∀ q ∈ ps, ∀ sv ∈ svs q, sv.pos = q :=
      fun q hq sv hsv => hkey q (by simp [hq]) sv hsv
    simp only [svsInRangeAux, List.cons_bind, List.filter_append]
    by_cases hbreak : qend < p
    · rw [if_pos hbreak]
      have h1 : (svs p).filter (fun sv =>
          decide (sv.pos ≤ qend) && decide (qstart ≤ sv.svEnd)) = [] := by
        rw [List.filter_eq_nil]
        intro sv hsv
        have := hkey p (by simp) sv hsv
        simp only [Bool.and_eq_true, decide_eq_true_eq, not_and]
        intro hle2
        omega
      have h2 : (ps.bind svs).filter (fun sv =>
          decide (sv.pos ≤ qend) && decide (qstart ≤ sv.svEnd)) = [] := by
        rw [List.filter_eq_nil]
        intro sv hsv
        obtain ⟨q, hq, hsvq⟩ := List.mem_bind.mp hsv
        have hp := hkey' q hq sv hsvq
        have := hle q hq
        simp only [Bool.and_eq_true, decide_eq_true_eq, not_and]
        intro hle2
        omega
      rw [h1, h2]
      rfl
    · rw [if_neg hbreak]
      rw [ih hsort' hkey']

/-- The chromosome index of the spec's range-query example: calls at
positions 500 (end 1500), 1800 (end 1900), 3000 (end 3100). -/
def exSvs : Int → List SvRec := fun p =>
  if p = 500 then [{ pos := 500, svEnd := 1500 }]
  else if p = 1800 then [{ pos := 1800, svEnd := 1900 }]
  else if p = 3000 then [{ pos := 3000, svEnd := 3100 }]
  else []

/-- Witness for C9 at the spec's example: the query [1000, 2000] returns the
calls at 500 and 1800 and excludes the one at 3000. -/
theorem C9_witness :
    getSvsInRange [500, 1800, 3000] exSvs 1000 2000 =
      [{ pos := 500, svEnd := 1500 }, { pos := 1800, svEnd := 1900 }] :=
  (C9_range_query [500, 1800, 3000] exSvs 1000 2000 (by decide)
    (by decide)).trans (by decide)

/-! ## SV construction (vcf.py lines 233-275, `SV.__init__`) -/

/-- The fields of a constructed SV record relevant to C10. -/
structure SvFields where
  chrom : String
  pos : Int
  svEnd : Int
  inslen : Option Int
  chr2 : Option String
  chr2pos : Option Int
  len : Option Int
  svtype : String
deriving DecidableEq

/-- vcf.py `SV.__init__` (lines 236-269): `end` parses to `pos` on failure
(`endField = none` models a non-integer END column); a `'.'` `inslen` or
`chr2` becomes `none`; a present `chr2` stores the parsed end as `chr2_pos`
and resets `end` to `pos`; the derived length is `abs(svlen)` when given,
else the (truthy, nonzero) insertion length, else `end - pos + 1` — but only
when both `pos` and `end` are truthy (nonzero), else `None`. -/
def svInit (chrom : String) (pos : Int) (endField : Option Int)
    (svtype : String) (svlen inslenF : Option Int) (chr2F : Option String) :
    SvFields :=
  let end0 : Int := match endField with
    | some e => e
    | none => pos
  let chr2pos : Option Int := match chr2F with
    | some _ => some end0
    | none => none
  let end1 : Int := match chr2F with
    | some _ => pos
    | none => end0
  let len : Option Int :=
    match svlen with
    | some s => some |s|
    | none =>
      match inslenF with
      | some i =>
        if i ≠ 0 then some i
        else if pos ≠ 0 ∧ end1 ≠ 0 then some (end1 - pos + 1) else none
      | none =>
        if pos ≠ 0 ∧ end1 ≠ 0 then some (end1 - pos + 1) else none
  { chrom := chrom, pos := pos, svEnd := end1, inslen := inslenF,
    chr2 := chr2F, chr2pos := chr2pos, len := len, svtype := svtype }

/-- Claim C10 (refuting as stated): the record at position 0 with END 5 and
chr2 present, no svlen and no inslen, gets `end` reset to 0 and `chr2_pos`
5, but its derived length is `None`, not 1 — the `if self.pos and self.end`
truthiness test fails at position 0. -/
theorem C10_counterexample :
    (svInit "1" 0 (some 5) "TRA" none none (some "2")).svEnd = 0 ∧
    (svInit "1" 0 (some 5) "TRA" none none (some "2")).chr2pos = some 5 ∧
    (svInit "1" 0 (some 5) "TRA" none none (some "2")).len = none ∧
    ¬((svInit "1" 0 (some 5) "TRA" none none (some "2")).len = some 1) := by
  refine ⟨rfl, rfl, rfl, by simp [svInit]⟩

/-- Claim C10 (amended): for every SV record constructed with a second
contig present, construction resets `end` to `pos` and stores the parsed END
value as the second-contig position, so `[pos, end]` is the single point
`pos`; and when neither an explicit length nor an insertion length is given,
the derived length is 1 — provided `pos ≠ 0`; at `pos = 0` the truthiness
test leaves the length undefined (`None`). -/
theorem C10_amended (chrom : String) (pos : Int) (endField : Option Int)
    (svtype : String) (svlen inslenF : Option Int) (c2 : String) :
    (svInit chrom pos endField svtype svlen inslenF (some c2)).svEnd = pos ∧
    (svInit chrom pos endField svtype svlen inslenF (some c2)).chr2pos =
      some (endField.getD pos) ∧
    (svlen = none → inslenF = none →
      (svInit chrom pos endField svtype svlen inslenF (some c2)).len =
        if pos ≠ 0 then some 1 else none) := by
  refine ⟨rfl, by cases endField <;> rfl, ?_⟩
  rintro rfl rfl
  simp only [svInit]
  by_cases hp : pos = 0
  · simp [hp]
  · simp [hp]

/-- Witness for the amended C10 at a concrete translocation record. -/
theorem C10_witness :
    (svInit "1" 10 (some 50) "TRA" none none (some "2")).svEnd = 10 ∧
    (svInit "1" 10 (some 50) "TRA" none none (some "2")).chr2pos =
      some ((some (50 : Int)).getD 10) ∧
    ((none : Option Int) = none → (none : Option Int) = none →
      (svInit "1" 10 (some 50) "TRA" none none (some "2")).len =
        if (10 : Int) ≠ 0 then some 1 else none) :=
  C10_amended "1" 10 (some 50) "TRA" none none "2"
